import Mathlib

/-!
Shallow embedding of `xd_font_list.js`, a tool that inventories the fonts
referenced inside an XD design archive.  JSON documents are modelled by the
mutual inductive `JVal`/`JList`/`JFields`; JavaScript `undefined` is modelled
by `Option JVal` (`none` = undefined, `some .null` = JSON null).  Thrown
exceptions (TypeError on member access of null, JSON.parse failure) are
modelled with `Except Unit`.  JavaScript objects used as string-keyed maps
are modelled by association lists whose insertion semantics mirror JS
property assignment (overwrite in place, append new keys at the end).
-/

mutual

inductive JVal where
  | null : JVal
  | bool : Bool → JVal
  | num : Int → JVal
  | str : String → JVal
  | arr : JList → JVal
  | obj : JFields → JVal

inductive JList where
  | nil : JList
  | cons : JVal → JList → JList

inductive JFields where
  | nil : JFields
  | cons : String → JVal → JFields → JFields

end

/-- Convert a `JList` to an ordinary Lean list of values. -/
def JList.toList : JList → List JVal
  | .nil => []
  | .cons v tl => v :: JList.toList tl

/-- Build a `JList` from an ordinary Lean list of values. -/
def JList.ofList : List JVal → JList
  | [] => .nil
  | v :: tl => .cons v (JList.ofList tl)

theorem JList.toList_ofList (xs : List JVal) : (JList.ofList xs).toList = xs := by
  induction xs with
  | nil => rfl
  | cons v tl ih => simp [JList.ofList, JList.toList, ih]

/-- Field lookup in an object, first occurrence wins (objects produced by
`JSON.parse` have unique keys). `none` models JavaScript `undefined`. -/
def lookupField : JFields → String → Option JVal
  | .nil, _ => none
  | .cons k v tl, key => if k = key then some v else lookupField tl key

/-- Property read `v[key]` on an arbitrary JavaScript value: reading a member
of `null` throws a TypeError (modelled by `.error ()`); reading a member of a
primitive or array named by one of the font keys yields `undefined`. -/
def JVal.member (v : JVal) (key : String) : Except Unit (Option JVal) :=
  match v with
  | .null => .error ()
  | .obj fields => .ok (lookupField fields key)
  | _ => .ok none

/-- Pure variant of property read for values already known to be non-null. -/
def fieldOf (v : JVal) (key : String) : Option JVal :=
  match v with
  | .obj fields => lookupField fields key
  | _ => none

theorem member_eq_fieldOf (v : JVal) (key : String) (h : v ≠ JVal.null) :
    v.member key = .ok (fieldOf v key) := by
  cases v <;> simp [JVal.member, fieldOf] at h ⊢

mutual

/-- JavaScript string conversion `String(v)` as used by property keys,
string concatenation and template literals. -/
def jsToString : JVal → String
  | .null => "null"
  | .bool true => "true"
  | .bool false => "false"
  | .num n => toString n
  | .str s => s
  | .arr xs => jsArrToString xs
  | .obj _ => "[object Object]"
termination_by structural v => v

def jsArrToString : JList → String
  | .nil => ""
  | .cons v .nil =>
    (match v with
     | .null => ""
     | v => jsToString v)
  | .cons v tl =>
    (match v with
     | .null => ""
     | v => jsToString v) ++ "," ++ jsArrToString tl
termination_by structural l => l

end

/-- String conversion of a possibly-`undefined` value (`undefined` prints and
keys as the string "undefined"). -/
def optToString : Option JVal → String
  | none => "undefined"
  | some v => jsToString v

/-- JavaScript truthiness, used by `if (this.contents)`. -/
def jsTruthy : JVal → Bool
  | .null => false
  | .bool b => b
  | .num n => n != 0
  | .str s => s != ""
  | _ => true

/-- FontData: one discovered font reference (class `FontData`). `name` and
`postScriptName` are stored exactly as read (possibly `undefined`); `style`
is normalized by the constructor. -/
structure FontData where
  name : Option JVal
  style : JVal
  postScriptName : Option JVal
  usages : List String

/-- The `FontData` constructor: `if (style === null || style === undefined)
style = ""`, `this.usages = []`. -/
def FontData.create (name style postScriptName : Option JVal) : FontData :=
  { name := name
    style := match style with
      | none => .str ""
      | some .null => .str ""
      | some v => v
    postScriptName := postScriptName
    usages := [] }

/-- Getter `id`: `return this.postScriptName` — used as a property key, so a
missing postscript name keys as the string "undefined". -/
def FontData.id (f : FontData) : String :=
  optToString f.postScriptName

/-- Method `addUsage`: append unless the exact label is already present. -/
def FontData.addUsage (f : FontData) (label : String) : FontData :=
  if f.usages.contains label then f
  else { f with usages := f.usages ++ [label] }

/-- Method `getUsages`: one header line then one line per usage. -/
def FontData.getUsages (f : FontData) : String :=
  f.usages.foldl (fun r usage => r ++ "  - " ++ usage ++ "\n")
    (optToString f.name ++ ":" ++ jsToString f.style ++ "\n")

/-- A JavaScript object used as a map from font id to `FontData`
(`ArtBoard.fonts` and the catalog built by `XdFonts.makeList`). -/
abbrev Fonts := List (String × FontData)

/-- Key test, `fonts.hasOwnProperty(key)`. -/
def hasKey : Fonts → String → Bool
  | [], _ => false
  | p :: rest, key => p.1 = key || hasKey rest key

/-- Property read `fonts[key]`. -/
def lookupFont : Fonts → String → Option FontData
  | [], _ => none
  | p :: rest, key => if p.1 = key then some p.2 else lookupFont rest key

/-- Property assignment `fonts[id] = font`: overwrite in place when the key
exists, append a new key at the end otherwise. -/
def insertFont (m : Fonts) (f : FontData) : Fonts :=
  if hasKey m f.id then
    m.map (fun p => if p.1 = f.id then (p.1, f) else p)
  else m ++ [(f.id, f)]

mutual

/-- Method `ArtBoard.findFonts`: the recursive scan.  Arrays recurse into
each element; objects are first tested for the inline shape (a `fontFamily`
field), then every field is visited in order: a field literally named `font`
is read as the nested declaration shape (which throws if its value is null),
and every field value is recursed into. -/
def findFonts (fonts : Fonts) (obj : JVal) : Except Unit Fonts :=
  match obj with
  | .arr items => findFontsList fonts items
  | .obj fields =>
    let fonts1 :=
      match lookupField fields "fontFamily" with
      | some fam =>
        insertFont fonts
          (FontData.create (some fam) (lookupField fields "fontStyle")
            (lookupField fields "postscriptName"))
      | none => fonts
    findFontsFields fonts1 fields
  | _ => .ok fonts

def findFontsList (fonts : Fonts) : JList → Except Unit Fonts
  | .nil => .ok fonts
  | .cons hd tl =>
    match findFonts fonts hd with
    | .error e => .error e
    | .ok fonts1 => findFontsList fonts1 tl

def findFontsFields (fonts : Fonts) : JFields → Except Unit Fonts
  | .nil => .ok fonts
  | .cons k v tl =>
    let step1 : Except Unit Fonts :=
      if k = "font" then
        match v.member "family", v.member "style", v.member "postscriptName" with
        | .ok fam, .ok sty, .ok pn =>
          .ok (insertFont fonts (FontData.create fam sty pn))
        | _, _, _ => .error ()
      else .ok fonts
    match step1 with
    | .error e => .error e
    | .ok fonts1 =>
      match findFonts fonts1 v with
      | .error e => .error e
      | .ok fonts2 => findFontsFields fonts2 tl

end

/-- Method `ArtBoard.updateFonts`: reset the map and scan the contents when
they are truthy. -/
def ArtBoard.updateFonts (contents : JVal) : Except Unit Fonts :=
  if jsTruthy contents then findFonts [] contents else .ok []

/-- ArtBoardIndex: one child of the manifest's artwork node (class
`ArtBoardIndex`).  The constructor copies `id`, `name` and `path` (possibly
`undefined`) and keeps the original object in `contents`. -/
structure ArtBoardIndex where
  contents : JVal
  id : Option JVal
  name : Option JVal
  path : Option JVal

/-- The `ArtBoardIndex` constructor, for a non-null child (the caller has
already read `child.name` without throwing). -/
def ArtBoardIndex.ofVal (object : JVal) : ArtBoardIndex :=
  { contents := object
    id := fieldOf object "id"
    name := fieldOf object "name"
    path := fieldOf object "path" }

/-- Getter `isLoaded`: `contents !== undefined && contents !== null`
(`contents` is always assigned a parsed JSON value, so only null can fail). -/
def ArtBoardIndex.isLoaded (b : ArtBoardIndex) : Bool :=
  match b.contents with
  | .null => false
  | _ => true

/-- Getter `isArtBoard`: `this.path.startsWith('artboard')` — throws a
TypeError unless `path` is a string. -/
def ArtBoardIndex.isArtBoard (b : ArtBoardIndex) : Except Unit Bool :=
  match b.path with
  | some (.str s) => .ok (s.startsWith "artboard")
  | _ => .error ()

/-- Method `getDataPath`: fixed prefix, the path (string-coerced), fixed
suffix. -/
def ArtBoardIndex.getDataPath (b : ArtBoardIndex) : String :=
  "artwork/" ++ optToString b.path ++ "/graphics/graphicContent.agc"

/-- Strict-equality test `v === '<s>'` on a possibly-undefined value. -/
def isName (v : Option JVal) (s : String) : Bool :=
  match v with
  | some (.str t) => t = s
  | _ => false

/-- A `for...of` loop's view of a value: arrays iterate their elements,
strings iterate their characters (as one-character strings); everything else
(null, numbers, booleans, plain objects) throws a TypeError. -/
def iterateVals (v : JVal) : Except Unit (List JVal) :=
  match v with
  | .arr xs => .ok xs.toList
  | .str s => .ok (s.data.map (fun c => JVal.str (String.mk [c])))
  | _ => .error ()

/-- The loop of `Manifest.getArtWork`: return the first child whose `name`
is the string "artwork" (reading `name` throws on a null child). -/
def findArtWorkChild : List JVal → Except Unit (Option JVal)
  | [] => .ok none
  | child :: rest =>
    match child.member "name" with
    | .error e => .error e
    | .ok n => if isName n "artwork" then .ok (some child) else findArtWorkChild rest

/-- Method `Manifest.getArtWork`: locate the manifest child labelled
"artwork"; absent `children` gives `undefined` (modelled `none`). -/
def Manifest.getArtWork (manifest : JVal) : Except Unit (Option JVal) :=
  match manifest.member "children" with
  | .error e => .error e
  | .ok none => .ok none
  | .ok (some cs) =>
    match iterateVals cs with
    | .error e => .error e
    | .ok elems => findArtWorkChild elems

/-- The loop of `Manifest.getArtBoards`: skip children named "pasteboard",
construct an `ArtBoardIndex` for every other child, drop the ones whose
`isLoaded` is false. -/
def collectBoards : List JVal → Except Unit (List ArtBoardIndex)
  | [] => .ok []
  | child :: rest =>
    match child.member "name" with
    | .error e => .error e
    | .ok n =>
      if isName n "pasteboard" then collectBoards rest
      else
        let board := ArtBoardIndex.ofVal child
        match collectBoards rest with
        | .error e => .error e
        | .ok tl => .ok (if board.isLoaded then board :: tl else tl)

/-- Method `Manifest.getArtBoards`: `undefined` (modelled `none`) when there
is no artwork child or it has no `children` field, otherwise the collected
board list. -/
def Manifest.getArtBoards (manifest : JVal) : Except Unit (Option (List ArtBoardIndex)) :=
  match Manifest.getArtWork manifest with
  | .error e => .error e
  | .ok none => .ok none
  | .ok (some artWork) =>
    match artWork.member "children" with
    | .error e => .error e
    | .ok none => .ok none
    | .ok (some cs) =>
      match iterateVals cs with
      | .error e => .error e
      | .ok elems =>
        match collectBoards elems with
        | .error e => .error e
        | .ok boards => .ok (some boards)

/-- The archive: a zip whose entries are addressed by name; each present
entry carries the result of `JSON.parse` on its UTF-8 bytes (`.error` when
the bytes are not well-formed JSON). -/
abbrev Archive := List (String × Except Unit JVal)

/-- `zip.getEntry(name)`: `null` (modelled `none`) when the entry is absent. -/
def getEntry : Archive → String → Option (Except Unit JVal)
  | [], _ => none
  | e :: rest, path => if e.1 = path then some e.2 else getEntry rest path

/-- The usage label `index.name + ` [<index.id>]`` recorded per page. -/
def usageLabel (index : ArtBoardIndex) : String :=
  optToString index.name ++ " [" ++ optToString index.id ++ "]"

/-- One catalog-merge step of the loop in `XdFonts.makeList` (lines
215-223): an already-present id gets the page label appended to its usages
(in place), a new id is inserted with the page-local `FontData` as-is. -/
def mergeEntry (fonts : Fonts) (label : String) (entry : String × FontData) : Fonts :=
  if hasKey fonts entry.1 then
    fonts.map (fun p => if p.1 = entry.1 then (p.1, p.2.addUsage label) else p)
  else fonts ++ [entry]

/-- The whole per-page merge: fold `mergeEntry` over the page's font map in
key order. -/
def mergePage (fonts : Fonts) (pageFonts : Fonts) (label : String) : Fonts :=
  pageFonts.foldl (fun acc e => mergeEntry acc label e) fonts

/-- Getter `ArtBoard.isLoaded`: `this.contents !== null` (the contents are
always a parsed JSON value, so only the JSON literal null fails the test). -/
def ArtBoard.isLoaded (contents : JVal) : Bool :=
  match contents with
  | .null => false
  | _ => true

/-- The page loop of `XdFonts.makeList`: a missing archive entry throws
(`entry.getData()` on null), malformed page JSON throws (`JSON.parse` in the
`ArtBoard` constructor), a page whose document is the JSON literal null is
logged and skipped, and a successful page is scanned and merged. -/
def processBoards (zip : Archive) (fonts : Fonts) (logs : List String) :
    List ArtBoardIndex → Except Unit (Fonts × List String)
  | [] => .ok (fonts, logs)
  | index :: rest =>
    let dataPath := index.getDataPath
    match getEntry zip dataPath with
    | none => .error ()
    | some (.error e) => .error e
    | some (.ok contents) =>
      if ArtBoard.isLoaded contents then
        match ArtBoard.updateFonts contents with
        | .error e => .error e
        | .ok pageFonts =>
          processBoards zip (mergePage fonts pageFonts (usageLabel index)) logs rest
      else processBoards zip fonts (logs ++ [dataPath ++ "の読み込みに失敗しました"]) rest

/-- Getter `Manifest.isLoaded`: `this.manifest !== undefined && this.manifest
!== null` (`JSON.parse` never yields undefined, so only null fails). -/
def Manifest.isLoaded (manifest : JVal) : Bool :=
  match manifest with
  | .null => false
  | _ => true

/-- Method `XdFonts.makeList`: load and parse the manifest (a missing entry
or malformed JSON throws), bail out with a logged message when the manifest
parses to null, bail out silently when there is no artwork node, then run
the page loop.  The returned pair is (catalog, console lines logged). -/
def XdFonts.makeList (zip : Archive) : Except Unit (Fonts × List String) :=
  match getEntry zip "manifest" with
  | none => .error ()
  | some (.error e) => .error e
  | some (.ok mjson) =>
    if Manifest.isLoaded mjson then
      match Manifest.getArtBoards mjson with
      | .error e => .error e
      | .ok none => .ok ([], [])
      | .ok (some indices) => processBoards zip [] [] indices
    else .ok ([], ["マニフェストの読み込みに失敗しました"])

/-- The whole console transcript of one run: the lines logged during
`makeList` followed by one `getUsages` block per catalog entry, or `.error`
when the run dies on an uncaught exception. -/
def programOutput (zip : Archive) : Except Unit (List String) :=
  match XdFonts.makeList zip with
  | .error e => .error e
  | .ok (fonts, logs) => .ok (logs ++ fonts.map (fun p => p.2.getUsages))

/-- A one-font page document: `{"fontFamily":"A","postscriptName":"F"}`. -/
def exampleDoc : JVal :=
  .obj (.cons "fontFamily" (.str "A") (.cons "postscriptName" (.str "F") .nil))

/-- The scan result of `exampleDoc`. -/
def examplePage : Fonts :=
  [("F", FontData.create (some (.str "A")) none (some (.str "F")))]

/-- C5: in both declaration shapes, a missing or null style field yields
`style = ""` (the empty string), never undefined or null. -/
theorem c5_null_style_normalization (n p : String) :
    ArtBoard.updateFonts
        (.obj (.cons "fontFamily" (.str n) (.cons "postscriptName" (.str p) .nil))) =
      .ok [(p, ⟨some (.str n), .str "", some (.str p), []⟩)] ∧
    ArtBoard.updateFonts
        (.obj (.cons "fontFamily" (.str n)
          (.cons "fontStyle" .null (.cons "postscriptName" (.str p) .nil)))) =
      .ok [(p, ⟨some (.str n), .str "", some (.str p), []⟩)] ∧
    ArtBoard.updateFonts
        (.obj (.cons "font"
          (.obj (.cons "family" (.str n) (.cons "postscriptName" (.str p) .nil))) .nil)) =
      .ok [(p, ⟨some (.str n), .str "", some (.str p), []⟩)] ∧
    ArtBoard.updateFonts
        (.obj (.cons "font"
          (.obj (.cons "family" (.str n)
            (.cons "style" .null (.cons "postscriptName" (.str p) .nil)))) .nil)) =
      .ok [(p, ⟨some (.str n), .str "", some (.str p), []⟩)] :=
  ⟨rfl, rfl, rfl, rfl⟩

/-- The traversal-completeness document of the spec:
`{"a":{"font":{"family":"Foo","style":"Bold","postscriptName":"Foo-Bold"}},
  "b":[{"fontFamily":"Bar","fontStyle":null,"postscriptName":"Bar-Reg"}]}`. -/
def traversalDoc : JVal :=
  .obj
    (.cons "a"
      (.obj (.cons "font"
        (.obj (.cons "family" (.str "Foo")
          (.cons "style" (.str "Bold")
            (.cons "postscriptName" (.str "Foo-Bold") .nil)))) .nil))
      (.cons "b"
        (.arr (.cons
          (.obj (.cons "fontFamily" (.str "Bar")
            (.cons "fontStyle" .null
              (.cons "postscriptName" (.str "Bar-Reg") .nil)))) .nil))
        .nil))

/-- C6: scanning the spec's traversal-completeness document yields exactly
two entries, keyed "Foo-Bold" and "Bar-Reg", the second with empty style. -/
theorem c6_traversal_completeness :
    ArtBoard.updateFonts traversalDoc =
      .ok [("Foo-Bold", ⟨some (.str "Foo"), .str "Bold", some (.str "Foo-Bold"), []⟩),
           ("Bar-Reg", ⟨some (.str "Bar"), .str "", some (.str "Bar-Reg"), []⟩)] :=
  rfl

/-- C10: a declaration with no postscriptName has `id` equal to the string
"undefined", whatever its display name and style; two such insertions
collapse into the single key "undefined" (last one wins), and a document
containing two such fragments scans to a single-entry map keyed
"undefined" holding the later fragment's data. -/
theorem c10_undefined_identity :
    (∀ n s : Option JVal, (FontData.create n s none).id = "undefined") ∧
    (∀ n1 s1 n2 s2 : Option JVal,
      insertFont (insertFont [] (FontData.create n1 s1 none)) (FontData.create n2 s2 none) =
        [("undefined", FontData.create n2 s2 none)]) ∧
    (∀ n1 n2 : String,
      ArtBoard.updateFonts
          (.obj (.cons "a" (.obj (.cons "fontFamily" (.str n1) .nil))
            (.cons "b" (.obj (.cons "fontFamily" (.str n2) .nil)) .nil))) =
        .ok [("undefined", FontData.create (some (.str n2)) none none)]) :=
  ⟨fun _ _ => rfl, fun _ _ _ _ => rfl, fun _ _ => rfl⟩

/-- Association-list well-formedness: JavaScript objects cannot carry a key
twice, so every map the program builds has pairwise-distinct keys. -/
def NodupKeys (m : Fonts) : Prop := (m.map Prod.fst).Nodup

/-- Page-scan maps never carry usages: only catalog aggregation writes them. -/
def UsagesNil (m : Fonts) : Prop := ∀ p ∈ m, p.2.usages = []

/-- The pair of fields that identity merging must retain for first-seen
declarations. -/
def nameStyle (fd : FontData) : Option JVal × JVal := (fd.name, fd.style)

theorem hasKey_eq_isSome (m : Fonts) (key : String) :
    hasKey m key = (lookupFont m key).isSome := by
  induction m with
  | nil => rfl
  | cons p rest ih =>
    by_cases h : p.1 = key <;> simp [hasKey, lookupFont, h, ih]

theorem lookupFont_mem (m : Fonts) (key : String) (fd : FontData)
    (h : lookupFont m key = some fd) : (key, fd) ∈ m := by
  induction m with
  | nil => simp [lookupFont] at h
  | cons p rest ih =>
    rcases p with ⟨a, b⟩
    by_cases hp : a = key
    · simp [lookupFont, hp] at h
      subst hp
      subst h
      exact List.mem_cons_self _ _
    · simp [lookupFont, hp] at h
      exact List.mem_cons_of_mem _ (ih h)

theorem hasKey_false_not_mem (m : Fonts) (key : String) (h : hasKey m key = false) :
    key ∉ m.map Prod.fst := by
  induction m with
  | nil => simp
  | cons p rest ih =>
    simp [hasKey] at h
    simp [h.1, ih h.2]
    intro hc
    exact h.1 hc.symm

theorem nameStyle_addUsage (f : FontData) (l : String) :
    nameStyle (f.addUsage l) = nameStyle f := by
  by_cases h : l ∈ f.usages <;> simp [FontData.addUsage, h, nameStyle]

theorem addUsage_idem (f : FontData) (l : String) :
    (f.addUsage l).addUsage l = f.addUsage l := by
  by_cases h : l ∈ f.usages
  · simp [FontData.addUsage, h]
  · simp [FontData.addUsage, h]

theorem addUsage_nil_usages (f : FontData) (l : String) (h : f.usages = []) :
    (f.addUsage l).usages = [l] := by
  simp [FontData.addUsage, h]

theorem lookupFont_append (a b : Fonts) (key : String) :
    lookupFont (a ++ b) key =
      match lookupFont a key with
      | some fd => some fd
      | none => lookupFont b key := by
  induction a with
  | nil => simp [lookupFont]
  | cons p rest ih =>
    by_cases h : p.1 = key <;> simp [lookupFont, h, ih]

theorem hasKey_append (a b : Fonts) (key : String) :
    hasKey (a ++ b) key = (hasKey a key || hasKey b key) := by
  induction a with
  | nil => simp [hasKey]
  | cons p rest ih =>
    by_cases h : p.1 = key <;> simp [hasKey, h, ih]

theorem lookupFont_map_addUsage (m : Fonts) (k key l : String) :
    lookupFont (m.map (fun p => if p.1 = k then (p.1, p.2.addUsage l) else p)) key =
      if k = key then (lookupFont m key).map (fun fd => fd.addUsage l)
      else lookupFont m key := by
  induction m with
  | nil => by_cases he : k = key <;> simp [lookupFont, he]
  | cons p rest ih =>
    by_cases hpk : p.1 = k
    · by_cases he : k = key
      · simp [lookupFont, hpk, he, hpk.trans he]
      · have hpkey : p.1 ≠ key := by rw [hpk]; exact he
        simp [lookupFont, hpk, he, hpkey, ih]
    · by_cases hpkey : p.1 = key
      · have he : k ≠ key := fun hc => hpk (hpkey.trans hc.symm)
        have hek : ¬key = k := fun hc => he hc.symm
        simp [lookupFont, hpk, hpkey, he, hek]
      · simp [lookupFont, hpk, hpkey, ih]

theorem keys_map_addUsage (m : Fonts) (k l : String) :
    (m.map (fun p => if p.1 = k then (p.1, p.2.addUsage l) else p)).map Prod.fst =
      m.map Prod.fst := by
  induction m with
  | nil => rfl
  | cons p rest ih =>
    by_cases hp : p.1 = k <;> simp [hp, ih]

theorem lookupFont_map_const (m : Fonts) (k key : String) (f : FontData) :
    lookupFont (m.map (fun p => if p.1 = k then (p.1, f) else p)) key =
      if k = key then (lookupFont m key).map (fun _ => f)
      else lookupFont m key := by
  induction m with
  | nil => by_cases he : k = key <;> simp [lookupFont, he]
  | cons p rest ih =>
    by_cases hpk : p.1 = k
    · by_cases he : k = key
      · simp [lookupFont, hpk, he, hpk.trans he]
      · have hpkey : p.1 ≠ key := by rw [hpk]; exact he
        simp [lookupFont, hpk, he, hpkey, ih]
    · by_cases hpkey : p.1 = key
      · have he : k ≠ key := fun hc => hpk (hpkey.trans hc.symm)
        have hek : ¬key = k := fun hc => he hc.symm
        simp [lookupFont, hpk, hpkey, he, hek]
      · simp [lookupFont, hpk, hpkey, ih]

theorem keys_map_const (m : Fonts) (k : String) (f : FontData) :
    (m.map (fun p => if p.1 = k then (p.1, f) else p)).map Prod.fst =
      m.map Prod.fst := by
  induction m with
  | nil => rfl
  | cons p rest ih =>
    by_cases hp : p.1 = k <;> simp [hp, ih]

theorem mergeEntry_lookup (fonts : Fonts) (l : String) (e : String × FontData)
    (key : String) :
    lookupFont (mergeEntry fonts l e) key =
      if e.1 = key then
        match lookupFont fonts key with
        | some fd => some (fd.addUsage l)
        | none => some e.2
      else lookupFont fonts key := by
  unfold mergeEntry
  by_cases hk : hasKey fonts e.1
  · rw [if_pos hk, lookupFont_map_addUsage]
    by_cases he : e.1 = key
    · subst he
      rw [hasKey_eq_isSome] at hk
      rcases hlk : lookupFont fonts e.1 with _ | fd
      · rw [hlk] at hk
        simp at hk
      · simp [hlk]
    · simp [he]
  · rw [if_neg hk, lookupFont_append]
    by_cases he : e.1 = key
    · subst he
      rw [hasKey_eq_isSome] at hk
      rcases hlk : lookupFont fonts e.1 with _ | fd
      · simp [hlk, lookupFont]
      · rw [hlk] at hk
        simp at hk
    · rcases hlk : lookupFont fonts key with _ | fd
      · simp [hlk, lookupFont, he]
      · simp [hlk, he]

theorem mergeEntry_keys (fonts : Fonts) (l : String) (e : String × FontData) :
    (mergeEntry fonts l e).map Prod.fst =
      if hasKey fonts e.1 then fonts.map Prod.fst else fonts.map Prod.fst ++ [e.1] := by
  unfold mergeEntry
  by_cases hk : hasKey fonts e.1
  · rw [if_pos hk, if_pos hk, keys_map_addUsage]
  · rw [if_neg hk, if_neg hk]
    simp

theorem mergeEntry_nodup (fonts : Fonts) (l : String) (e : String × FontData)
    (h : NodupKeys fonts) : NodupKeys (mergeEntry fonts l e) := by
  unfold NodupKeys
  rw [mergeEntry_keys]
  by_cases hk : hasKey fonts e.1
  · simpa [hk] using h
  · rw [if_neg hk]
    rw [List.nodup_append]
    refine ⟨h, List.nodup_singleton _, ?_⟩
    simpa using hasKey_false_not_mem fonts e.1 (by simpa using hk)

theorem mergePage_cons (fonts : Fonts) (e : String × FontData) (pf : Fonts) (l : String) :
    mergePage fonts (e :: pf) l = mergePage (mergeEntry fonts l e) pf l := by
  simp [mergePage]

theorem mergePage_lookup_hit (pf : Fonts) (fonts : Fonts) (l key : String) (fd : FontData)
    (h : lookupFont fonts key = some fd) :
    lookupFont (mergePage fonts pf l) key =
      some (if hasKey pf key then fd.addUsage l else fd) := by
  induction pf generalizing fonts fd with
  | nil => simpa [mergePage, hasKey] using h
  | cons e rest ih =>
    rw [mergePage_cons]
    by_cases he : e.1 = key
    · have hme : lookupFont (mergeEntry fonts l e) key = some (fd.addUsage l) := by
        rw [mergeEntry_lookup, if_pos he, h]
      rw [ih _ _ hme]
      by_cases hr : hasKey rest key <;>
        simp [hasKey, he, hr, addUsage_idem]
    · have hme : lookupFont (mergeEntry fonts l e) key = some fd := by
        rw [mergeEntry_lookup, if_neg he]
        exact h
      rw [ih _ _ hme]
      simp [hasKey, he]

theorem mergePage_lookup_fresh (pf : Fonts) (fonts : Fonts) (l key : String)
    (h : lookupFont fonts key = none) :
    (lookupFont (mergePage fonts pf l) key).map nameStyle =
      (lookupFont pf key).map nameStyle := by
  induction pf generalizing fonts with
  | nil => simp [mergePage, lookupFont, h]
  | cons e rest ih =>
    rw [mergePage_cons]
    by_cases he : e.1 = key
    · have hme : lookupFont (mergeEntry fonts l e) key = some e.2 := by
        rw [mergeEntry_lookup, if_pos he, h]
      rw [mergePage_lookup_hit rest _ l key e.2 hme]
      by_cases hr : hasKey rest key <;>
        simp [lookupFont, he, hr, nameStyle_addUsage]
    · have hme : lookupFont (mergeEntry fonts l e) key = none := by
        rw [mergeEntry_lookup, if_neg he]
        exact h
      rw [ih _ hme]
      simp [lookupFont, he]

theorem mergePage_nodup (pf : Fonts) (fonts : Fonts) (l : String)
    (h : NodupKeys fonts) : NodupKeys (mergePage fonts pf l) := by
  induction pf generalizing fonts with
  | nil => simpa [mergePage] using h
  | cons e rest ih =>
    rw [mergePage_cons]
    exact ih _ (mergeEntry_nodup fonts l e h)

theorem mergePage_disjoint (pf : Fonts) (fonts : Fonts) (l : String)
    (hnodup : NodupKeys pf) (hdisj : ∀ p ∈ pf, hasKey fonts p.1 = false) :
    mergePage fonts pf l = fonts ++ pf := by
  induction pf generalizing fonts with
  | nil => simp [mergePage]
  | cons e rest ih =>
    rw [mergePage_cons]
    have he : hasKey fonts e.1 = false := hdisj e (List.mem_cons_self _ _)
    have hme : mergeEntry fonts l e = fonts ++ [e] := by
      unfold mergeEntry
      rw [if_neg (by simp [he])]
    rw [hme]
    have hcons : (e.1 :: rest.map Prod.fst).Nodup := by
      simpa [NodupKeys] using hnodup
    have hnr : NodupKeys rest := (List.nodup_cons.mp hcons).2
    have hdr : ∀ p ∈ rest, hasKey (fonts ++ [e]) p.1 = false := by
      intro p hp
      rw [hasKey_append]
      have h1 : hasKey fonts p.1 = false := hdisj p (List.mem_cons_of_mem _ hp)
      have h2 : e.1 ≠ p.1 := by
        have hnotin : e.1 ∉ rest.map Prod.fst := (List.nodup_cons.mp hcons).1
        intro hc
        exact hnotin (hc ▸ List.mem_map_of_mem Prod.fst hp)
      simp [h1, hasKey, h2]
    rw [ih _ hnr hdr]
    simp

theorem mergePage_nil_left (pf : Fonts) (l : String) (hnodup : NodupKeys pf) :
    mergePage [] pf l = pf := by
  rw [mergePage_disjoint pf [] l hnodup (fun p _ => rfl)]
  rfl

/-- Invariant of every font map the scan builds: keys are unique and no
usages have been recorded yet. -/
def FontsInv (m : Fonts) : Prop := NodupKeys m ∧ UsagesNil m

theorem insertFont_inv (m : Fonts) (f : FontData) (h : FontsInv m) (hf : f.usages = []) :
    FontsInv (insertFont m f) := by
  obtain ⟨hn, hu⟩ := h
  unfold insertFont
  by_cases hk : hasKey m f.id
  · rw [if_pos hk]
    constructor
    · unfold NodupKeys
      rw [keys_map_const]
      exact hn
    · intro p hp
      rcases List.mem_map.mp hp with ⟨q, hq, hq1⟩
      by_cases hqk : q.1 = f.id
      · rw [← hq1]
        simp [hqk, hf]
      · rw [← hq1]
        simp [hqk]
        exact hu q hq
  · rw [if_neg hk]
    constructor
    · unfold NodupKeys
      rw [List.map_append, List.nodup_append]
      refine ⟨hn, by simp, ?_⟩
      simpa using hasKey_false_not_mem m f.id (by simpa using hk)
    · intro p hp
      rcases List.mem_append.mp hp with hp | hp
      · exact hu p hp
      · simp at hp
        rw [hp]
        exact hf

theorem scan_inv (n : Nat) :
    (∀ (obj : JVal) (m r : Fonts), sizeOf obj ≤ n → FontsInv m →
      findFonts m obj = .ok r → FontsInv r) ∧
    (∀ (xs : JList) (m r : Fonts), sizeOf xs ≤ n → FontsInv m →
      findFontsList m xs = .ok r → FontsInv r) ∧
    (∀ (fs : JFields) (m r : Fonts), sizeOf fs ≤ n → FontsInv m →
      findFontsFields m fs = .ok r → FontsInv r) := by
  induction n with
  | zero =>
    refine ⟨fun obj m r hs => ?_, fun xs m r hs => ?_, fun fs m r hs => ?_⟩
    · cases obj <;> simp at hs
    · cases xs <;> simp at hs
    · cases fs <;> simp at hs
  | succ n ih =>
    obtain ⟨ihV, ihL, ihF⟩ := ih
    refine ⟨fun obj m r hs hm hr => ?_, fun xs m r hs hm hr => ?_,
      fun fs m r hs hm hr => ?_⟩
    · cases obj with
      | null =>
        simp [findFonts] at hr
        rwa [← hr]
      | bool b =>
        simp [findFonts] at hr
        rwa [← hr]
      | num i =>
        simp [findFonts] at hr
        rwa [← hr]
      | str s =>
        simp [findFonts] at hr
        rwa [← hr]
      | arr items =>
        simp only [findFonts] at hr
        have hs2 : sizeOf items ≤ n := by simp at hs; omega
        exact ihL items m r hs2 hm hr
      | obj fields =>
        have hs2 : sizeOf fields ≤ n := by simp at hs; omega
        rcases hlf : lookupField fields "fontFamily" with _ | fam
        · simp only [findFonts, hlf] at hr
          exact ihF fields m r hs2 hm hr
        · simp only [findFonts, hlf] at hr
          exact ihF fields _ r hs2 (insertFont_inv m _ hm rfl) hr
    · cases xs with
      | nil =>
        simp [findFontsList] at hr
        rwa [← hr]
      | cons hd tl =>
        have hshd : sizeOf hd ≤ n := by simp at hs; omega
        have hstl : sizeOf tl ≤ n := by simp at hs; omega
        rcases hfr : findFonts m hd with e | m1
        · simp [findFontsList, hfr] at hr
        · simp only [findFontsList, hfr] at hr
          exact ihL tl m1 r hstl (ihV hd m m1 hshd hm hfr) hr
    · cases fs with
      | nil =>
        simp [findFontsFields] at hr
        rwa [← hr]
      | cons k v tl =>
        have hsv : sizeOf v ≤ n := by simp at hs; omega
        have hstl : sizeOf tl ≤ n := by simp at hs; omega
        by_cases hvnull : v = JVal.null
        · subst hvnull
          by_cases hk : k = "font"
          · simp [findFontsFields, hk, JVal.member] at hr
          · simp only [findFontsFields, hk, if_false, findFonts] at hr
            exact ihF tl m r hstl hm hr
        · have hm1 : v.member "family" = .ok (fieldOf v "family") :=
            member_eq_fieldOf v _ hvnull
          have hm2 : v.member "style" = .ok (fieldOf v "style") :=
            member_eq_fieldOf v _ hvnull
          have hm3 : v.member "postscriptName" = .ok (fieldOf v "postscriptName") :=
            member_eq_fieldOf v _ hvnull
          by_cases hk : k = "font"
          · simp only [findFontsFields, hk, if_true, hm1, hm2, hm3] at hr
            rcases hf2 : findFonts
                (insertFont m (FontData.create (fieldOf v "family") (fieldOf v "style")
                  (fieldOf v "postscriptName"))) v with e | m2
            · simp [hf2] at hr
            · simp only [hf2] at hr
              have hinv2 : FontsInv m2 :=
                ihV v _ m2 hsv (insertFont_inv m _ hm rfl) hf2
              exact ihF tl m2 r hstl hinv2 hr
          · simp only [findFontsFields, hk, if_false] at hr
            rcases hf2 : findFonts m v with e | m2
            · simp [hf2] at hr
            · simp only [hf2] at hr
              exact ihF tl m2 r hstl (ihV v m m2 hsv hm hf2) hr

theorem updateFonts_inv (doc : JVal) (pf : Fonts)
    (h : ArtBoard.updateFonts doc = .ok pf) : FontsInv pf := by
  unfold ArtBoard.updateFonts at h
  by_cases ht : jsTruthy doc
  · rw [if_pos ht] at h
    exact (scan_inv (sizeOf doc)).1 doc [] pf (Nat.le_refl _)
      ⟨by simp [NodupKeys], by simp [UsagesNil]⟩ h
  · rw [if_neg ht] at h
    simp at h
    subst h
    exact ⟨by simp [NodupKeys], by simp [UsagesNil]⟩

/-- C1 counterexample: merging the same one-font page under two different
page labels leaves the catalog entry with only the second label — the first
page to introduce a font contributes no usage label at all, so the claim
that both labels appear exactly once fails. -/
theorem c1_counterexample :
    ArtBoard.updateFonts exampleDoc = .ok examplePage ∧
    (lookupFont (mergePage (mergePage [] examplePage "P1 [1]") examplePage "P2 [2]") "F").map
        FontData.usages = some ["P2 [2]"] ∧
    (lookupFont (mergePage (mergePage [] examplePage "P1 [1]") examplePage "P2 [2]") "F").map
        (fun fd => fd.usages.count "P1 [1]") = some 0 :=
  ⟨rfl, rfl, rfl⟩

/-- C1 (amended): when two pages with distinct labels both declare a font F
that is new to the catalog, the merged catalog entry for F carries the
second page's label exactly once and the first page's label not at all (the
page that introduces a font is inserted with its empty usages list and no
label is recorded for it), however many times F occurred inside either
page's document. -/
theorem c1_usage_labels (d1 d2 : JVal) (pf1 pf2 : Fonts) (l1 l2 F : String)
    (h1 : ArtBoard.updateFonts d1 = .ok pf1) (h2 : ArtBoard.updateFonts d2 = .ok pf2)
    (hF1 : hasKey pf1 F = true) (hF2 : hasKey pf2 F = true) (hl : l1 ≠ l2) :
    (lookupFont (mergePage (mergePage [] pf1 l1) pf2 l2) F).map
        (fun fd => fd.usages.count l2) = some 1 ∧
    (lookupFont (mergePage (mergePage [] pf1 l1) pf2 l2) F).map
        (fun fd => fd.usages.count l1) = some 0 := by
  obtain ⟨hn1, hu1⟩ := updateFonts_inv d1 pf1 h1
  have _hu2 := h2
  rw [mergePage_nil_left pf1 l1 hn1]
  rw [hasKey_eq_isSome] at hF1
  rcases hlk : lookupFont pf1 F with _ | fd0
  · rw [hlk] at hF1
    simp at hF1
  · have husages : fd0.usages = [] := hu1 (F, fd0) (lookupFont_mem pf1 F fd0 hlk)
    have hmerged : lookupFont (mergePage pf1 pf2 l2) F = some (fd0.addUsage l2) := by
      rw [mergePage_lookup_hit pf2 pf1 l2 F fd0 hlk]
      simp [hF2]
    rw [hmerged]
    constructor
    · simp [addUsage_nil_usages fd0 l2 husages]
    · simp [addUsage_nil_usages fd0 l2 husages, hl]

/-- Closed instance of `c1_usage_labels` at a concrete one-font page pair. -/
theorem c1_usage_labels_witness :
    (lookupFont (mergePage (mergePage [] examplePage "P1 [1]") examplePage "P2 [2]") "F").map
        (fun fd => fd.usages.count "P2 [2]") = some 1 ∧
    (lookupFont (mergePage (mergePage [] examplePage "P1 [1]") examplePage "P2 [2]") "F").map
        (fun fd => fd.usages.count "P1 [1]") = some 0 :=
  c1_usage_labels exampleDoc exampleDoc examplePage examplePage "P1 [1]" "P2 [2]" "F"
    rfl rfl rfl rfl (by decide)

/-- C4 counterexample: merging a fresh page's scan result once records no
usage label (length 0), merging it twice records the page's label (length
1), so the lengths differ and the idempotence claim fails. -/
theorem c4_counterexample :
    (lookupFont (mergePage [] examplePage "P [1]") "F").map (fun fd => fd.usages.length) =
      some 0 ∧
    (lookupFont (mergePage (mergePage [] examplePage "P [1]") examplePage "P [1]") "F").map
        (fun fd => fd.usages.length) = some 1 :=
  ⟨rfl, rfl⟩

/-- C4 (amended): merging a page's scan result into an empty catalog once
records no label; merging it a second time adds the page's label exactly
once; a third merge leaves the entry unchanged — the label is never
duplicated. -/
theorem c4_merge_idempotence (d : JVal) (pf : Fonts) (l F : String)
    (h : ArtBoard.updateFonts d = .ok pf) (hF : hasKey pf F = true) :
    (lookupFont (mergePage [] pf l) F).map FontData.usages = some [] ∧
    (lookupFont (mergePage (mergePage [] pf l) pf l) F).map FontData.usages = some [l] ∧
    lookupFont (mergePage (mergePage (mergePage [] pf l) pf l) pf l) F =
      lookupFont (mergePage (mergePage [] pf l) pf l) F := by
  obtain ⟨hn, hu⟩ := updateFonts_inv d pf h
  rw [mergePage_nil_left pf l hn]
  rcases hlk : lookupFont pf F with _ | fd0
  · rw [hasKey_eq_isSome, hlk] at hF
    simp at hF
  · have husages : fd0.usages = [] := hu (F, fd0) (lookupFont_mem pf F fd0 hlk)
    have hlk2 : lookupFont (mergePage pf pf l) F = some (fd0.addUsage l) := by
      rw [mergePage_lookup_hit pf pf l F fd0 hlk]
      simp [hF]
    refine ⟨by simp [husages], ?_, ?_⟩
    · rw [hlk2]
      simp [addUsage_nil_usages fd0 l husages]
    · rw [hlk2, mergePage_lookup_hit pf _ l F _ hlk2]
      simp [hF, addUsage_idem]

/-- Closed instance of `c4_merge_idempotence` at a concrete one-font page. -/
theorem c4_merge_idempotence_witness :
    (lookupFont (mergePage [] examplePage "P [1]") "F").map FontData.usages = some [] ∧
    (lookupFont (mergePage (mergePage [] examplePage "P [1]") examplePage "P [1]") "F").map
        FontData.usages = some ["P [1]"] ∧
    lookupFont
        (mergePage (mergePage (mergePage [] examplePage "P [1]") examplePage "P [1]")
          examplePage "P [1]") "F" =
      lookupFont (mergePage (mergePage [] examplePage "P [1]") examplePage "P [1]") "F" :=
  c4_merge_idempotence exampleDoc examplePage "P [1]" "F" rfl rfl

/-- The catalog accumulation performed by the page loop of
`XdFonts.makeList`, with the archive plumbing abstracted away: a fold of
per-page merges over the (page font map, page label) pairs of the pages that
were scanned successfully (`processBoards_fold` below proves that the loop
computes exactly such a fold). -/
def makeCatalog (pages : List (Fonts × String)) : Fonts :=
  pages.foldl (fun acc pg => mergePage acc pg.1 pg.2) []

/-- The entry of the first page map in the list that declares `key`. -/
def firstDecl (key : String) : List (Fonts × String) → Option FontData
  | [] => none
  | (pf, _) :: rest =>
    match lookupFont pf key with
    | some fd => some fd
    | none => firstDecl key rest

theorem foldMerge_lookup_hit (pages : List (Fonts × String)) (c : Fonts) (key : String)
    (fd : FontData) (h : lookupFont c key = some fd) :
    ∃ fd2, lookupFont (pages.foldl (fun acc pg => mergePage acc pg.1 pg.2) c) key =
        some fd2 ∧ nameStyle fd2 = nameStyle fd := by
  induction pages generalizing c fd with
  | nil => exact ⟨fd, h, rfl⟩
  | cons pg rest ih =>
    simp only [List.foldl_cons]
    have hstep := mergePage_lookup_hit pg.1 c pg.2 key fd h
    rcases ih (mergePage c pg.1 pg.2) _ hstep with ⟨fd2, h2, hns⟩
    refine ⟨fd2, h2, ?_⟩
    rw [hns]
    by_cases hk : hasKey pg.1 key <;> simp [hk, nameStyle_addUsage]

theorem foldMerge_lookup (pages : List (Fonts × String)) (c : Fonts) (key : String)
    (h : lookupFont c key = none) :
    (lookupFont (pages.foldl (fun acc pg => mergePage acc pg.1 pg.2) c) key).map nameStyle =
      (firstDecl key pages).map nameStyle := by
  induction pages generalizing c with
  | nil => simp [firstDecl, h]
  | cons pg rest ih =>
    rcases pg with ⟨pf, l⟩
    simp only [List.foldl_cons]
    rcases hpf : lookupFont pf key with _ | fd
    · have hfresh := mergePage_lookup_fresh pf c l key h
      rw [hpf] at hfresh
      simp only [Option.map_none'] at hfresh
      have hnone : lookupFont (mergePage c pf l) key = none :=
        Option.map_eq_none'.mp hfresh
      rw [ih _ hnone]
      simp [firstDecl, hpf]
    · have hfresh := mergePage_lookup_fresh pf c l key h
      rw [hpf] at hfresh
      rcases hmc : lookupFont (mergePage c pf l) key with _ | fd1
      · rw [hmc] at hfresh
        simp at hfresh
      · rw [hmc] at hfresh
        simp only [Option.map_some', Option.some_inj] at hfresh
        rcases foldMerge_lookup_hit rest _ key fd1 hmc with ⟨fd2, h2, hns⟩
        rw [h2]
        simp [firstDecl, hpf, hns, hfresh]

theorem foldMerge_nodup (pages : List (Fonts × String)) (c : Fonts)
    (h : NodupKeys c) :
    NodupKeys (pages.foldl (fun acc pg => mergePage acc pg.1 pg.2) c) := by
  induction pages generalizing c with
  | nil => exact h
  | cons pg rest ih =>
    simp only [List.foldl_cons]
    exact ih _ (mergePage_nodup pg.1 c pg.2 h)

theorem processBoards_fold (zip : Archive) (indices : List ArtBoardIndex)
    (fonts : Fonts) (logs : List String) (c : Fonts) (lg : List String)
    (h : processBoards zip fonts logs indices = .ok (c, lg)) :
    ∃ pages : List (Fonts × String),
      c = pages.foldl (fun acc pg => mergePage acc pg.1 pg.2) fonts := by
  induction indices generalizing fonts logs with
  | nil =>
    simp [processBoards] at h
    exact ⟨[], h.1.symm⟩
  | cons index rest ih =>
    simp only [processBoards] at h
    split at h
    · simp at h
    · simp at h
    · split at h
      · split at h
        · simp at h
        · rename_i pf hup
          rcases ih _ _ h with ⟨pages, hpages⟩
          exact ⟨(pf, usageLabel index) :: pages, by simpa using hpages⟩
      · exact ih _ _ h

/-- C3: the page loop computes a fold of per-page merges, and for any such
fold and any identity the catalog has pairwise-distinct keys (exactly one
entry per identity) and the entry's displayName/style are those of the
first-encountered declaration with that identity — a later page's
declaration under the same identity never overwrites them. -/
theorem c3_first_encountered_wins :
    (∀ (zip : Archive) (indices : List ArtBoardIndex) (c : Fonts) (lg : List String),
      processBoards zip [] [] indices = .ok (c, lg) →
      ∃ pages : List (Fonts × String), c = makeCatalog pages) ∧
    (∀ (pages : List (Fonts × String)) (key : String),
      NodupKeys (makeCatalog pages) ∧
      (lookupFont (makeCatalog pages) key).map nameStyle =
        (firstDecl key pages).map nameStyle) := by
  constructor
  · intro zip indices c lg h
    exact processBoards_fold zip indices [] [] c lg h
  · intro pages key
    refine ⟨foldMerge_nodup pages [] (by simp [NodupKeys]), ?_⟩
    exact foldMerge_lookup pages [] key rfl

/-- Closed instance of `c3_first_encountered_wins`: an empty run's catalog
is a fold, and a concrete one-page catalog keeps the first-seen name and
style for key "F" with no duplicate keys. -/
theorem c3_first_encountered_wins_witness :
    (∃ pages : List (Fonts × String), ([] : Fonts) = makeCatalog pages) ∧
    (NodupKeys (makeCatalog [(examplePage, "P [1]")]) ∧
      (lookupFont (makeCatalog [(examplePage, "P [1]")]) "F").map nameStyle =
        (firstDecl "F" [(examplePage, "P [1]")]).map nameStyle) :=
  ⟨c3_first_encountered_wins.1 [] [] [] [] rfl,
   c3_first_encountered_wins.2 [(examplePage, "P [1]")] "F"⟩

/-- C2 (amended): a page whose derived content path has no archive entry
makes `entry.getData()` throw, and one whose bytes are not well-formed JSON
makes `JSON.parse` throw — in both cases the uncaught exception aborts the
whole run and no further page is processed.  Only a page whose document is
the JSON literal null is skipped with a diagnostic while the remaining
pages continue. -/
theorem c2_page_error_behavior :
    (∀ (zip : Archive) (fonts : Fonts) (logs : List String) (index : ArtBoardIndex)
        (rest : List ArtBoardIndex),
      getEntry zip index.getDataPath = none →
      processBoards zip fonts logs (index :: rest) = .error ()) ∧
    (∀ (zip : Archive) (fonts : Fonts) (logs : List String) (index : ArtBoardIndex)
        (rest : List ArtBoardIndex),
      getEntry zip index.getDataPath = some (.error ()) →
      processBoards zip fonts logs (index :: rest) = .error ()) ∧
    (∀ (zip : Archive) (fonts : Fonts) (logs : List String) (index : ArtBoardIndex)
        (rest : List ArtBoardIndex),
      getEntry zip index.getDataPath = some (.ok .null) →
      processBoards zip fonts logs (index :: rest) =
        processBoards zip fonts (logs ++ [index.getDataPath ++ "の読み込みに失敗しました"]) rest) := by
  refine ⟨fun zip fonts logs index rest h => ?_, fun zip fonts logs index rest h => ?_,
    fun zip fonts logs index rest h => ?_⟩
  · simp [processBoards, h]
  · simp [processBoards, h]
  · simp [processBoards, h, ArtBoard.isLoaded]

/-- A well-formed page child of the manifest's artwork node. -/
def artworkChild1 : JVal :=
  .obj (.cons "id" (.str "1") (.cons "name" (.str "A") (.cons "path" (.str "artboard-1") .nil)))

/-- A second well-formed page child. -/
def artworkChild2 : JVal :=
  .obj (.cons "id" (.str "2") (.cons "name" (.str "B") (.cons "path" (.str "artboard-2") .nil)))

/-- The `ArtBoardIndex` of `artworkChild1`. -/
def exampleIndex1 : ArtBoardIndex := ArtBoardIndex.ofVal artworkChild1

/-- A manifest whose artwork node carries the given children. -/
def mkManifest (children : List JVal) : JVal :=
  .obj (.cons "children"
    (.arr (.cons
      (.obj (.cons "name" (.str "artwork")
        (.cons "children" (.arr (JList.ofList children)) .nil)))
      .nil))
    .nil)

/-- Archive where page 1's content entry holds malformed JSON. -/
def pageBadArchive : Archive :=
  [("artwork/artboard-1/graphics/graphicContent.agc", .error ())]

/-- Archive where page 1's content document is the JSON literal null. -/
def pageNullArchive : Archive :=
  [("artwork/artboard-1/graphics/graphicContent.agc", .ok .null)]

/-- Closed instance of `c2_page_error_behavior` at concrete archives. -/
theorem c2_page_error_behavior_witness :
    processBoards [] [] [] [exampleIndex1] = .error () ∧
    processBoards pageBadArchive [] [] [exampleIndex1] = .error () ∧
    processBoards pageNullArchive [] [] [exampleIndex1] =
      processBoards pageNullArchive []
        ([] ++ [exampleIndex1.getDataPath ++ "の読み込みに失敗しました"]) [] :=
  ⟨c2_page_error_behavior.1 [] [] [] exampleIndex1 [] rfl,
   c2_page_error_behavior.2.1 pageBadArchive [] [] exampleIndex1 [] rfl,
   c2_page_error_behavior.2.2 pageNullArchive [] [] exampleIndex1 [] rfl⟩

/-- Archive with two enumerated pages where page 1's content entry is
missing while page 2's is present and scannable. -/
def missingPageArchive : Archive :=
  [("manifest", .ok (mkManifest [artworkChild1, artworkChild2])),
   ("artwork/artboard-2/graphics/graphicContent.agc", .ok exampleDoc)]

/-- C2 counterexample: with page 1's content entry absent, the missing entry
is not caught at the page boundary — the whole run throws, page 2 is never
scanned and no catalog is produced, contradicting the claim that the page is
skipped and all other pages still merged. -/
theorem c2_counterexample : XdFonts.makeList missingPageArchive = .error () := rfl

/-- C7 (amended): an absent manifest entry or malformed manifest JSON throws
and the run dies on the uncaught exception (no catalog, nothing printed
cleanly); a manifest that parses to the JSON literal null prints a
diagnostic line and yields an empty catalog; only the no-artwork-node and
empty-page-list cases exit cleanly with an empty catalog after printing
nothing. -/
theorem c7_exit_behavior :
    (∀ zip : Archive, getEntry zip "manifest" = none → programOutput zip = .error ()) ∧
    (∀ zip : Archive, getEntry zip "manifest" = some (.error ()) →
      programOutput zip = .error ()) ∧
    (∀ zip : Archive, getEntry zip "manifest" = some (.ok .null) →
      programOutput zip = .ok ["マニフェストの読み込みに失敗しました"]) ∧
    (∀ (zip : Archive) (m : JVal), getEntry zip "manifest" = some (.ok m) →
      Manifest.isLoaded m = true → Manifest.getArtBoards m = .ok none →
      programOutput zip = .ok []) ∧
    (∀ (zip : Archive) (m : JVal), getEntry zip "manifest" = some (.ok m) →
      Manifest.isLoaded m = true → Manifest.getArtBoards m = .ok (some []) →
      programOutput zip = .ok []) := by
  refine ⟨fun zip h => ?_, fun zip h => ?_, fun zip h => ?_,
    fun zip m h hl hab => ?_, fun zip m h hl hab => ?_⟩
  · simp [programOutput, XdFonts.makeList, h]
  · simp [programOutput, XdFonts.makeList, h]
  · simp [programOutput, XdFonts.makeList, h, Manifest.isLoaded]
  · simp [programOutput, XdFonts.makeList, h, hl, hab]
  · simp [programOutput, XdFonts.makeList, h, hl, hab, processBoards]

/-- Archive whose manifest entry holds malformed JSON. -/
def badManifestArchive : Archive := [("manifest", .error ())]

/-- Archive whose manifest parses to the JSON literal null. -/
def nullManifestArchive : Archive := [("manifest", .ok .null)]

/-- Archive whose manifest has no artwork node. -/
def noArtworkArchive : Archive := [("manifest", .ok (.str "x"))]

/-- Archive whose manifest has an artwork node with zero children. -/
def emptyPagesArchive : Archive := [("manifest", .ok (mkManifest []))]

/-- Closed instance of `c7_exit_behavior` at concrete archives. -/
theorem c7_exit_behavior_witness :
    programOutput [] = .error () ∧
    programOutput badManifestArchive = .error () ∧
    programOutput nullManifestArchive = .ok ["マニフェストの読み込みに失敗しました"] ∧
    programOutput noArtworkArchive = .ok [] ∧
    programOutput emptyPagesArchive = .ok [] :=
  ⟨c7_exit_behavior.1 [] rfl,
   c7_exit_behavior.2.1 badManifestArchive rfl,
   c7_exit_behavior.2.2.1 nullManifestArchive rfl,
   c7_exit_behavior.2.2.2.1 noArtworkArchive (.str "x") rfl rfl rfl,
   c7_exit_behavior.2.2.2.2 emptyPagesArchive (mkManifest []) rfl rfl rfl⟩

/-- C7 counterexample: a manifest-load failure does not produce a clean
empty run — malformed manifest JSON makes the run throw, and a manifest
parsing to null prints a diagnostic line, so "exits cleanly after printing
nothing" fails for manifest-load failure. -/
theorem c7_counterexample :
    programOutput badManifestArchive = .error () ∧
    programOutput nullManifestArchive = .ok ["マニフェストの読み込みに失敗しました"] :=
  ⟨rfl, rfl⟩

/-- Does a child carry `name === 'pasteboard'`? -/
def isPasteboard (c : JVal) : Bool := isName (fieldOf c "name") "pasteboard"

theorem collectBoards_no_null (cs : List JVal) (h : ∀ c ∈ cs, c ≠ JVal.null) :
    collectBoards cs =
      .ok ((cs.filter (fun c => !isPasteboard c)).map ArtBoardIndex.ofVal) := by
  induction cs with
  | nil => rfl
  | cons c rest ih =>
    have hc : c ≠ JVal.null := h c (List.mem_cons_self _ _)
    have hrest := ih (fun x hx => h x (List.mem_cons_of_mem _ hx))
    simp only [collectBoards, member_eq_fieldOf c "name" hc]
    by_cases hpb : isName (fieldOf c "name") "pasteboard"
    · rw [if_pos hpb, hrest]
      have hpb2 : isPasteboard c = true := hpb
      simp [List.filter_cons, hpb2]
    · rw [if_neg hpb, hrest]
      have hload : (ArtBoardIndex.ofVal c).isLoaded = true := by
        cases c <;>
          first
          | (exfalso; exact hc rfl)
          | simp [ArtBoardIndex.ofVal, ArtBoardIndex.isLoaded]
      have hpb2 : isPasteboard c = false := by
        simpa [isPasteboard] using hpb
      simp [List.filter_cons, hpb2, hload]

theorem getArtBoards_mkManifest (cs : List JVal) (h : ∀ c ∈ cs, c ≠ JVal.null) :
    Manifest.getArtBoards (mkManifest cs) =
      .ok (some ((cs.filter (fun c => !isPasteboard c)).map ArtBoardIndex.ofVal)) := by
  simp [Manifest.getArtBoards, Manifest.getArtWork, mkManifest, JVal.member,
    lookupField, iterateVals, JList.toList, JList.toList_ofList, findArtWorkChild,
    isName, collectBoards_no_null cs h]

/-- A scratch-area child (`name === 'pasteboard'`). -/
def pasteboardChild : JVal :=
  .obj (.cons "name" (.str "pasteboard") (.cons "path" (.str "pasteboard") .nil))

/-- C8: enumerating a manifest whose artwork children (none of them the
JSON literal null) include the scratch-area "pasteboard" entry yields
exactly one `ArtBoardIndex` per non-pasteboard child, in order, and none
for any pasteboard-labelled child. -/
theorem c8_pasteboard_filtered (cs : List JVal)
    (hnull : ∀ c ∈ cs, c ≠ JVal.null)
    (_hpb : ∃ c ∈ cs, isPasteboard c = true) :
    Manifest.getArtBoards (mkManifest cs) =
      .ok (some ((cs.filter (fun c => !isPasteboard c)).map ArtBoardIndex.ofVal)) ∧
    ∀ b ∈ (cs.filter (fun c => !isPasteboard c)).map ArtBoardIndex.ofVal,
      isPasteboard b.contents = false := by
  refine ⟨getArtBoards_mkManifest cs hnull, ?_⟩
  intro b hb
  rcases List.mem_map.mp hb with ⟨c, hcmem, hbc⟩
  have hcf := List.of_mem_filter hcmem
  rw [← hbc]
  have : (ArtBoardIndex.ofVal c).contents = c := rfl
  rw [this]
  simpa using hcf

/-- Closed instance of `c8_pasteboard_filtered`: the pasteboard child is
dropped, the page child yields its descriptor. -/
theorem c8_pasteboard_filtered_witness :
    Manifest.getArtBoards (mkManifest [pasteboardChild, artworkChild1]) =
      .ok (some (([pasteboardChild, artworkChild1].filter (fun c => !isPasteboard c)).map
        ArtBoardIndex.ofVal)) ∧
    ∀ b ∈ ([pasteboardChild, artworkChild1].filter (fun c => !isPasteboard c)).map
        ArtBoardIndex.ofVal, isPasteboard b.contents = false :=
  c8_pasteboard_filtered [pasteboardChild, artworkChild1]
    (by
      intro c hc
      rcases List.mem_cons.mp hc with h | h
      · subst h
        simp [pasteboardChild]
      · rcases List.mem_cons.mp h with h | h
        · subst h
          simp [artworkChild1]
        · simp at h)
    ⟨pasteboardChild, List.mem_cons_self _ _, rfl⟩

/-- A child whose relativePath lacks the "artboard" prefix and whose name is
not "pasteboard". -/
def plainChild : JVal :=
  .obj (.cons "id" (.str "1") (.cons "name" (.str "x") (.cons "path" (.str "foo") .nil)))

/-- C9 counterexample: the child with relativePath "foo" (no "artboard"
prefix, so not a page by the kind predicate) is nevertheless enumerated —
`isArtBoard` is never consulted by enumeration, contradicting the claim
that entries lacking the prefix are excluded. -/
theorem c9_counterexample :
    Manifest.getArtBoards (mkManifest [plainChild]) =
      .ok (some [ArtBoardIndex.ofVal plainChild]) ∧
    (ArtBoardIndex.ofVal plainChild).isArtBoard = .ok false :=
  ⟨rfl, rfl⟩

/-- C9 (amended): the kind predicate `isArtBoard` does test whether
`relativePath` starts with "artboard", but page enumeration never consults
it — any non-null child whose name is not "pasteboard" is enumerated,
whatever its relativePath. -/
theorem c9_kind_predicate_unused (child : JVal) (hnull : child ≠ JVal.null)
    (hpb : isPasteboard child = false) :
    Manifest.getArtBoards (mkManifest [child]) =
      .ok (some [ArtBoardIndex.ofVal child]) ∧
    (∀ s : String, fieldOf child "path" = some (.str s) →
      (ArtBoardIndex.ofVal child).isArtBoard = .ok (s.startsWith "artboard")) := by
  constructor
  · have hchar := getArtBoards_mkManifest [child]
      (by intro c hc; simp at hc; subst hc; exact hnull)
    rw [hchar]
    simp [List.filter_cons, hpb]
  · intro s hs
    simp [ArtBoardIndex.isArtBoard, ArtBoardIndex.ofVal, hs]

/-- Closed instance of `c9_kind_predicate_unused` at the non-prefixed child. -/
theorem c9_kind_predicate_unused_witness :
    Manifest.getArtBoards (mkManifest [plainChild]) =
      .ok (some [ArtBoardIndex.ofVal plainChild]) ∧
    (ArtBoardIndex.ofVal plainChild).isArtBoard = .ok ("foo".startsWith "artboard") :=
  ⟨(c9_kind_predicate_unused plainChild (by simp [plainChild]) rfl).1,
   (c9_kind_predicate_unused plainChild (by simp [plainChild]) rfl).2 "foo" rfl⟩
